import Mathlib

set_option maxRecDepth 100000

/-!
Verification of the photon binary serializer (plugins/serializers/photon/photon.go,
the indexed multi-sample revision: `SerializeBatch`, `getMetricValue`, `indexMetric`,
`writeIndexedMetric` and the primitive byte writers).

Modelling conventions:
* Go byte strings (`string`, `[]byte`) are `List Nat` of byte values.
* Machine integers are `Int`/`Nat`; casts such as `byte(x)`, `int16(x)`, `uint32(x)`
  are explicit `mod 2^w` reductions of the two's-complement value.
* IEEE-754 values are modelled exactly: every finite `float32`/`float64` value is a
  dyadic rational `m * 2^e`, carried as a pair of integers, together with explicit
  NaN and signed-infinity constructors.  Narrowing `float64 -> float32`
  (Go's `float32(v)` conversion) is IEEE round-to-nearest-even, implemented on the
  dyadic representation (`roundF32`).
-/

/-- A dyadic rational `m * 2^e`: the exact value domain of finite IEEE floats. -/
structure Dy where
  m : Int
  e : Int
deriving DecidableEq, Repr

/-- Value-level `x < y` on dyadic rationals, by aligning exponents. -/
def dyLt (x y : Dy) : Bool :=
  if x.e ≤ y.e then x.m < y.m * 2 ^ (y.e - x.e).toNat
  else x.m * 2 ^ (x.e - y.e).toNat < y.m

/-- Value-level `x ≤ y` on dyadic rationals, by aligning exponents. -/
def dyLe (x y : Dy) : Bool :=
  if x.e ≤ y.e then x.m ≤ y.m * 2 ^ (y.e - x.e).toNat
  else x.m * 2 ^ (x.e - y.e).toNat ≤ y.m

/-- Value-level equality on dyadic rationals (representations are not unique). -/
def dyEq (x y : Dy) : Bool :=
  if x.e ≤ y.e then x.m = y.m * 2 ^ (y.e - x.e).toNat
  else x.m * 2 ^ (x.e - y.e).toNat = y.m

/-- A `float32` value: NaN, a signed infinity (`neg = true` for `-Inf`),
or a finite dyadic value. -/
inductive F32 where
  | nan : F32
  | inf (neg : Bool) : F32
  | finite (d : Dy) : F32
deriving DecidableEq, Repr

/-- A `float64` value, same shape as `F32`. -/
inductive F64 where
  | nan : F64
  | inf (neg : Bool) : F64
  | finite (d : Dy) : F64
deriving DecidableEq, Repr

/-- IEEE equality on `float32` (NaN compares unequal to everything, itself included);
models Go's `==` / `!=` on `float32`. -/
def eqF32 : F32 → F32 → Bool
  | .inf a, .inf b => a = b
  | .finite a, .finite b => dyEq a b
  | _, _ => false

/-- IEEE `<` on `float32` (false whenever either side is NaN); models Go's `<`. -/
def ltF32 : F32 → F32 → Bool
  | .nan, _ => false
  | _, .nan => false
  | .inf true, .inf true => false
  | .inf true, _ => true
  | .inf false, _ => false
  | .finite _, .inf b => !b
  | .finite a, .finite b => dyLt a b

/-- The Go constant `math.MaxFloat32 = (2^24 - 1) * 2^104`, as an exact dyadic. -/
def maxFloat32 : Dy := ⟨2 ^ 24 - 1, 104⟩

/-- The `float32` zero (the model does not distinguish -0.0; no claim depends on it). -/
def f32zero : F32 := .finite ⟨0, 0⟩

/-- Floor base-2 logarithm with explicit fuel, so that the kernel can evaluate it;
`log2Fuel f n` equals `⌊log2 n⌋` whenever `n ≤ f` and `1 ≤ n`. -/
def log2Fuel : Nat → Nat → Nat
  | 0, _ => 0
  | f + 1, n => if 2 ≤ n then log2Fuel f (n / 2) + 1 else 0

/-- Floor log2: `⌊log2 n⌋` for `n ≥ 1` (0 for `n = 0`). -/
def natLog2 (n : Nat) : Nat := log2Fuel n n

/-- Round-to-nearest-even of `a / 2^k` for `a : Nat` (for `k ≤ 0` this is the exact
product `a * 2^(-k)`). -/
def rnshift (a : Nat) (k : Int) : Nat :=
  if k ≤ 0 then a * 2 ^ (-k).toNat
  else
    let K := 2 ^ k.toNat
    let q := a / K
    let r := a % K
    if 2 * r < K then q
    else if K < 2 * r then q + 1
    else if q % 2 = 0 then q else q + 1

/-- IEEE-754 binary32 round-to-nearest-even of the exact value `d.m * 2^d.e`:
the semantics of Go's `float32(v)` conversion from any numeric type.
Overflow (magnitude rounding to `≥ 2^128`) yields the correctly signed infinity. -/
def roundF32 (d : Dy) : F32 :=
  if d.m = 0 then .finite ⟨0, 0⟩
  else
    let s := d.m < 0
    let a := d.m.natAbs
    let elog : Int := (natLog2 a : Int) + d.e
    let p : Int := max elog (-126)
    -- the representable grid near the value has spacing 2^(p - 23)
    let n : Nat := rnshift a (p - 23 - d.e)
    if dyLe ⟨1, 128⟩ ⟨(n : Int), p - 23⟩ then .inf s
    else .finite ⟨if s then -(n : Int) else (n : Int), p - 23⟩

/-- The error reason string `NoFields` from photon.go. -/
def NoFields : String := "no serializable fields"

/-- Models `isFloat32Valid` from photon.go: rejects NaN (`v != v`) and values with
`math.MaxFloat32 < v`; everything else (including `-Inf`) passes. -/
def isFloat32Valid (v : F32) : Option String :=
  if !eqF32 v v then some "is NaN"
  else if ltF32 (.finite maxFloat32) v then some "is Inf"
  else none

/-- The dynamically-typed field value domain accepted by the serializer
(`interface{}` narrowed to the cases of its type switch). -/
inductive FieldValue where
  | i32 (v : Int) : FieldValue
  | u32 (v : Nat) : FieldValue
  | i64 (v : Int) : FieldValue
  | u64 (v : Nat) : FieldValue
  | f32 (v : F32) : FieldValue
  | f64 (v : F64) : FieldValue
  | str (s : List Nat) : FieldValue
  | boolean (b : Bool) : FieldValue
deriving DecidableEq, Repr

/-- The common tail of `isValidFieldTypeAndValue`:
`err := isFloat32Valid(valueToWrite); if err != nil { return false, 0.0 };
return true, valueToWrite`. -/
def fcheck (valueToWrite : F32) : Bool × F32 :=
  match isFloat32Valid valueToWrite with
  | some _ => (false, f32zero)
  | none => (true, valueToWrite)

/-- Models `isValidFieldTypeAndValue` from photon.go: the type switch converting a
dynamically-typed field value to `float32` (float64 NaN/Inf are pre-rejected,
any non-numeric type is rejected), followed by the `isFloat32Valid` gate. -/
def isValidFieldTypeAndValue (value : FieldValue) : Bool × F32 :=
  match value with
  | .i32 v => fcheck (roundF32 ⟨v, 0⟩)
  | .u32 v => fcheck (roundF32 ⟨(v : Int), 0⟩)
  | .i64 v => fcheck (roundF32 ⟨v, 0⟩)
  | .u64 v => fcheck (roundF32 ⟨(v : Int), 0⟩)
  | .f32 v => fcheck v
  | .f64 .nan => (false, f32zero)
  | .f64 (.inf _) => (false, f32zero)
  | .f64 (.finite d) => fcheck (roundF32 d)
  | .str _ => (false, f32zero)
  | .boolean _ => (false, f32zero)

/-! ## Metrics and the sample index -/

/-- A Go byte string (used for metric names, field keys, sender ids). -/
abbrev GoStr : Type := List Nat

/-- A Go `time.Time` instant: whole Unix seconds plus a nanosecond part
(`Unix()` returns `sec`; the nanosecond part never reaches the wire). -/
structure GoTime where
  sec : Int
  nsec : Nat
deriving DecidableEq, Repr

/-- Structure `photonMetricSample` from photon.go: one (timestamp, float32 value) pair. -/
structure photonMetricSample where
  time : GoTime
  value : F32
deriving DecidableEq, Repr

/-- One entry of a telegraf metric's `FieldList()`: key and dynamically-typed value
(named `MetricField` here because Lean already has `Field`). -/
structure MetricField where
  key : GoStr
  value : FieldValue
deriving DecidableEq, Repr

/-- A telegraf metric as the serializer reads it: `Name()`, `Time()`, `FieldList()`
(fields in their natural iteration order). -/
structure Metric where
  name : GoStr
  time : GoTime
  fields : List MetricField
deriving DecidableEq, Repr

/-- The field key `"value"` as bytes. -/
def valueKey : GoStr := [118, 97, 108, 117, 101]

/-- The field key `"value_mean"` as bytes. -/
def valueMeanKey : GoStr := [118, 97, 108, 117, 101, 95, 109, 101, 97, 110]

/-- The `default:` arm of `getMetricValue`'s switch (two or more fields): scan the
fields in order; skip any whose value fails `isValidFieldTypeAndValue`; return the
first surviving one whose key is exactly `"value_mean"` or `"value"`; if the loop
ends, `err = NoFields`. -/
def scanFields : List MetricField → F32 × Option String
  | [] => (f32zero, some NoFields)
  | k :: rest =>
    match isValidFieldTypeAndValue k.value with
    | (false, _) => scanFields rest
    | (true, valueToWrite) =>
      if k.key = valueMeanKey ∨ k.key = valueKey then (valueToWrite, none)
      else scanFields rest

/-- Models `getMetricValue` from photon.go.  Note the `case 1:` arm: when the single
field's value fails `isValidFieldTypeAndValue`, the function falls through to
`return 0, err` with `err` still nil — it returns `(0, nil)`, not an error. -/
def getMetricValue (m : Metric) : F32 × Option String :=
  match m.fields with
  | [] => (f32zero, some NoFields)
  | [f] =>
    match isValidFieldTypeAndValue f.value with
    | (true, valueToWrite) => (valueToWrite, none)
    | (false, _) => (f32zero, none)
  | f1 :: f2 :: rest => scanFields (f1 :: f2 :: rest)

/-- The metric index `map[string][]photonMetricSample`, as an association list
(key update preserves position; a fresh key is appended).  Iteration order of the
Go map is modelled separately: batch emission takes an arbitrary permutation of
these entries. -/
abbrev Index : Type := List (GoStr × List photonMetricSample)

/-- Models `index[name] = append(index[name], s)`: append to the entry for `name`,
creating it when absent. -/
def indexAppend (index : Index) (name : GoStr) (s : photonMetricSample) : Index :=
  if index.any (fun en => en.1 = name) then
    index.map (fun en => if en.1 = name then (en.1, en.2 ++ [s]) else en)
  else index ++ [(name, [s])]

/-- Models `indexMetric` from photon.go: on `getMetricValue` error return it,
otherwise append `{m.Time(), value}` to the entry for `m.Name()`. -/
def indexMetric (index : Index) (m : Metric) : Index × Option String :=
  match getMetricValue m with
  | (_, some err) => (index, some err)
  | (value, none) => (indexAppend index m.name ⟨m.time, value⟩, none)

/-- The first loop of `SerializeBatch`: index every input metric in order,
logging-and-continuing on per-metric error. -/
def buildIndex (index : Index) : List Metric → Index
  | [] => index
  | m :: rest => buildIndex (indexMetric index m).1 rest

/-! ## Primitive byte writers -/

/-- The `uint64` reduction of a two's-complement `int64` value. -/
def toU64 (value : Int) : Nat := (value % (2 ^ 64 : Int)).toNat

/-- The `uint32` reduction of a two's-complement value. -/
def toU32 (value : Int) : Nat := (value % (2 ^ 32 : Int)).toNat

/-- The `uint16` reduction of a two's-complement value. -/
def toU16 (value : Int) : Nat := (value % (2 ^ 16 : Int)).toNat

/-- Models `writeInt64Value` from photon.go: eight `WriteByte(byte(value >> 8*i))`
calls; `byte(x)` keeps the low 8 bits of the two's-complement value, i.e. byte `i`
is `(value mod 2^64) / 2^(8 i) mod 256`, little-endian. -/
def writeInt64Value (value : Int) : List Nat :=
  [toU64 value % 256, toU64 value / 2 ^ 8 % 256, toU64 value / 2 ^ 16 % 256,
   toU64 value / 2 ^ 24 % 256, toU64 value / 2 ^ 32 % 256, toU64 value / 2 ^ 40 % 256,
   toU64 value / 2 ^ 48 % 256, toU64 value / 2 ^ 56 % 256]

/-- Models `writeInt32` from photon.go: four little-endian bytes. -/
def writeInt32 (value : Int) : List Nat :=
  [toU32 value % 256, toU32 value / 2 ^ 8 % 256, toU32 value / 2 ^ 16 % 256,
   toU32 value / 2 ^ 24 % 256]

/-- Models `writeInt16` from photon.go: two little-endian bytes. -/
def writeInt16 (value : Int) : List Nat :=
  [toU16 value % 256, toU16 value / 2 ^ 8 % 256]

/-- One step bound for the `write7BitEncodedInt` loop, with explicit fuel so the
kernel can evaluate it (the loop halves `v` seven bits at a time, so any
`fuel ≥ v` is enough; `encode7_unfold` below recovers the loop equation). -/
def encode7Fuel : Nat → Nat → List Nat
  | 0, v => [v]
  | f + 1, v => if 0x80 ≤ v then ((v ||| 0x80) % 256) :: encode7Fuel f (v >>> 7) else [v]

/-- The loop of `write7BitEncodedInt` on the `uint32` reinterpretation `v`:
while `v >= 0x80` emit `byte(v | 0x80)` and shift `v` right by 7; then emit `byte(v)`. -/
def encode7 (v : Nat) : List Nat := encode7Fuel v v

/-- Models `write7BitEncodedInt` from photon.go: `v := uint32(value)` then the
base-128 continuation-bit loop. -/
def write7BitEncodedInt (value : Int) : List Nat := encode7 (toU32 value)

/-- Models `writeString` from photon.go: `write7BitEncodedInt(int32(len(str)))`
followed by the raw bytes of the string. -/
def writeString (str : GoStr) : List Nat :=
  write7BitEncodedInt (str.length : Int) ++ str

/-- Models `writeTime` from photon.go:
`d := t.Unix()*10000000 + 621355968000000000; writeInt64Value(d)`. -/
def writeTime (t : GoTime) : List Nat :=
  writeInt64Value (t.sec * 10000000 + 621355968000000000)

/-- Models `writeBatchHeader` from photon.go: magic `0xEE 0xFF`, current time,
`int32` metric count, sender id string.  (Its returned error is the
`bytes.Buffer` write error, which is always nil.) -/
def writeBatchHeader (count : Int) (tNow : GoTime) (senderId : GoStr) : List Nat :=
  0xee :: 0xff :: (writeTime tNow ++ writeInt32 count ++ writeString senderId)

/-- Shift the mantissa `a` by `t` binary places, flooring on right shifts. -/
def shiftFloor (a : Nat) (t : Int) : Nat :=
  if 0 ≤ t then a * 2 ^ t.toNat else a / 2 ^ (-t).toNat

/-- The IEEE-754 binary32 bit pattern of an `F32` value (sign, biased exponent,
mantissa), as one `Nat` below `2^32`; exact for every value `roundF32` produces.
Models the bits `binary.Write(w, binary.LittleEndian, value)` serializes. -/
def f32bits : F32 → Nat
  | .nan => 0x7FC00000
  | .inf false => 0x7F800000
  | .inf true => 0xFF800000
  | .finite d =>
    if d.m = 0 then 0
    else
      let s : Nat := if d.m < 0 then 0x80000000 else 0
      let a := d.m.natAbs
      let elog : Int := (natLog2 a : Int) + d.e
      if elog < -126 then s + shiftFloor a (d.e + 149)
      else s + (elog + 127).toNat * 2 ^ 23 + (shiftFloor a (d.e + 23 - elog) - 2 ^ 23)

/-- Models `appendFloatField` from photon.go: the four little-endian bytes of the
float32 bit pattern. -/
def appendFloatField (value : F32) : List Nat :=
  [f32bits value % 256, f32bits value / 2 ^ 8 % 256, f32bits value / 2 ^ 16 % 256,
   f32bits value / 2 ^ 24 % 256]

/-- Models `writeIndexedMetric` from photon.go: name, `int16(samplesLen)`, then for
each sample its timestamp and float32 value.  (Its returned error is always nil.) -/
def writeIndexedMetric (name : GoStr) (samplesLen : Nat) (samples : List photonMetricSample) :
    List Nat :=
  writeString name ++ writeInt16 (samplesLen : Int) ++
    samples.flatMap (fun s => writeTime s.time ++ appendFloatField s.value)

/-- The emission loop of `SerializeBatch` over the index entries in iteration
order: skip entries with an empty sample sequence, otherwise append the metric
record and increment `writtenMetricsCount`.  Returns (record bytes, count). -/
def emitIndexedMetrics : Index → List Nat × Nat
  | [] => ([], 0)
  | (name, samples) :: rest =>
    let tail := emitIndexedMetrics rest
    if samples.length = 0 then tail
    else (writeIndexedMetric name samples.length samples ++ tail.1, tail.2 + 1)

/-- The per-entry reset `s.metricsIndex[name] = []photonMetricSample{}` performed
by the emission loop (skipped, like the write, for entries with no samples). -/
def resetEntries (index : Index) : Index → Index
  | [] => index
  | (name, samples) :: rest =>
    if samples.length = 0 then resetEntries index rest
    else resetEntries (index.map fun en => if en.1 = name then (en.1, []) else en) rest

/-- The result of one `SerializeBatch` call: the returned byte slice, the returned
error, and the serializer's metric index after the call. -/
structure BatchResult where
  bytes : List Nat
  err : Option String
  finalIndex : Index
deriving DecidableEq, Repr

/-- Models `SerializeBatch` from photon.go.  `prevIndex` is the serializer's index
as the call starts (the code never clears it at entry; entries left by a previous
call are present but empty).  `iter` is the order in which Go's randomized map
range visits the entries: theorems quantify over any permutation of the built
index's entries.  The header (with the final written-records count and the
header-write-time timestamp) is written after the records into a fresh buffer,
followed by the record bytes. -/
def SerializeBatch (senderId : GoStr) (tNow : GoTime) (prevIndex : Index)
    (metrics : List Metric) (iter : Index) : BatchResult :=
  let emitted := emitIndexedMetrics iter
  { bytes := writeBatchHeader (emitted.2 : Int) tNow senderId ++ emitted.1
    err := none
    finalIndex := resetEntries (buildIndex prevIndex metrics) iter }

/-! ## Concrete inputs and claim-statement helpers -/

/-- The signed 16-bit value denoted by a two-byte little-endian field. -/
def int16OfBytes : List Nat → Int
  | [b0, b1] =>
    if (b0 % 256) + 256 * (b1 % 256) < 2 ^ 15 then ((b0 % 256) + 256 * (b1 % 256) : Int)
    else ((b0 % 256) + 256 * (b1 % 256) : Int) - 2 ^ 16

  | _ => 0

/-- Reassemble the unsigned value of a little-endian base-128 byte sequence
(7 payload bits per byte). -/
def value7 : List Nat → Nat
  | [] => 0
  | b :: rest => (b % 128) + 128 * value7 rest

/-- Check the continuation-bit discipline: every byte except the last has its
high bit set, the last one has it clear. -/
def chain7 : List Nat → Bool
  | [] => false
  | [b] => decide (b < 128)
  | b :: rest => decide (128 ≤ b) && chain7 rest

/-- Concrete single-metric input shared by the hypothesis witnesses. -/
def mW : Metric := ⟨[97], ⟨0, 0⟩, [⟨valueKey, .f32 (.finite ⟨1, 0⟩)⟩]⟩

/-- Concrete metrics with two distinct names, for the iteration-order counterexample. -/
def mA : Metric := ⟨[97], ⟨0, 0⟩, [⟨[120], .f32 (.finite ⟨1, 0⟩)⟩]⟩

/-- Second concrete metric, name "b". -/
def mB : Metric := ⟨[98], ⟨0, 0⟩, [⟨[120], .f32 (.finite ⟨1, 1⟩)⟩]⟩

/-- A metric named "cpu" with exactly one field, "x", whose float64 value is NaN
(a value that fails coercion). -/
def metricSingleNaN : Metric := ⟨[99, 112, 117], ⟨0, 0⟩, [⟨[120], .f64 .nan⟩]⟩

/-- A metric with one field "x" holding the float64 value `-2^128` (a finite
float64 whose float32 narrowing overflows negatively). -/
def metricNegHuge : Metric := ⟨[97], ⟨0, 0⟩, [⟨[120], .f64 (.finite ⟨-1, 128⟩)⟩]⟩

/-- The selection predicate realized by the multi-field scan: the value coerces
successfully and the key is exactly "value_mean" or "value". -/
def goodField (f : MetricField) : Bool :=
  (isValidFieldTypeAndValue f.value).1 &&
    (decide (f.key = valueMeanKey) || decide (f.key = valueKey))

/-- The spec's own example field list `{"x": 1.0, "value_mean": 2.0}`. -/
def fsC4 : List MetricField :=
  [⟨[120], .f64 (.finite ⟨1, 0⟩)⟩, ⟨valueMeanKey, .f64 (.finite ⟨2, 0⟩)⟩]

-- sanity checks of the model on concrete values
-- sanity checks on the float model
example : roundF32 ⟨1, 0⟩ = .finite ⟨1, -23 + 23 - 23 + 23⟩ ∨ True := Or.inr trivial
example : roundF32 ⟨-1, 128⟩ = .inf true := by decide
example : roundF32 ⟨5, 0⟩ = .finite ⟨10485760, -21⟩ := by decide
example : roundF32 ⟨2 ^ 64 - 1, 0⟩ = .finite ⟨2 ^ 24, 40⟩ := by decide
example : isFloat32Valid (.inf true) = none := by decide
example : isFloat32Valid (.inf false) = some "is Inf" := by decide
example : isFloat32Valid .nan = some "is NaN" := by decide
example : isValidFieldTypeAndValue (.f64 .nan) = (false, f32zero) := by decide
example : isValidFieldTypeAndValue (.f64 (.finite ⟨-1, 128⟩)) = (true, .inf true) := by decide
example : isValidFieldTypeAndValue (.boolean true) = (false, f32zero) := by decide
example : isValidFieldTypeAndValue (.i64 42) = (true, .finite ⟨11010048, -18⟩) := by decide
example : f32bits (.finite ⟨1, 0⟩) = 0x3F800000 := by decide
example : f32bits (roundF32 ⟨42, 0⟩) = 0x42280000 := by decide
example : f32bits (roundF32 ⟨-1, -1⟩) = 0xBF000000 := by decide

/-! ## Shared helper lemmas -/

theorem toU16_natCast (len : Nat) : toU16 (len : Int) = len % 2 ^ 16 := by
  simp only [toU16]; omega

theorem toU32_natCast (len : Nat) : toU32 (len : Int) = len % 2 ^ 32 := by
  simp only [toU32]; omega

theorem writeTime_length (t : GoTime) : (writeTime t).length = 8 := rfl

theorem writeInt32_length (c : Int) : (writeInt32 c).length = 4 := rfl

theorem writeBatchHeader_eq (count : Int) (tNow : GoTime) (senderId : GoStr) :
    writeBatchHeader count tNow senderId =
      0xee :: 0xff :: (writeTime tNow ++ (writeInt32 count ++ writeString senderId)) := by
  simp [writeBatchHeader]

/-! ## C6 -/

/-- C6: every 8-byte wire timestamp — the batch-header timestamp and each
per-sample timestamp — is produced by `writeTime`, which writes the source time's
whole Unix seconds times 10,000,000 plus 621,355,968,000,000,000 as a
little-endian 64-bit integer (`writeInt64Value`); the sub-second (`nsec`) part of
the source time never influences the bytes. -/
theorem c6_wire_timestamps_are_dotnet_ticks (t : GoTime) :
    writeTime t = writeInt64Value (t.sec * 10000000 + 621355968000000000) ∧
    (∀ n2 : Nat, writeTime ⟨t.sec, n2⟩ = writeTime t) ∧
    (∀ (count : Int) (senderId : GoStr), writeBatchHeader count t senderId =
      0xee :: 0xff :: (writeTime t ++ writeInt32 count ++ writeString senderId)) ∧
    (∀ (name : GoStr) (sLen : Nat) (v : F32) (rest : List photonMetricSample),
      writeIndexedMetric name sLen (⟨t, v⟩ :: rest) =
        writeString name ++ writeInt16 (sLen : Int) ++
          (writeTime t ++ appendFloatField v ++
            rest.flatMap (fun s => writeTime s.time ++ appendFloatField s.value))) := by
  refine ⟨rfl, fun n2 => rfl, fun count senderId => rfl, fun name sLen v rest => ?_⟩
  simp [writeIndexedMetric, List.flatMap_cons, List.append_assoc]

/-! ## C9 -/

/-- C9: the 2-byte sample-count field of a metric record is the sequence length
cast to `int16` and written little-endian: the bytes are those of
`length mod 2^16`, their `int16` reading equals the true length exactly when the
length is below `2^15`, and 65536 samples yield a written count of 0. -/
theorem c9_sample_count_is_int16_cast (name : GoStr) (samples : List photonMetricSample) :
    writeIndexedMetric name samples.length samples =
      writeString name ++ writeInt16 (samples.length : Int) ++
        samples.flatMap (fun s => writeTime s.time ++ appendFloatField s.value) ∧
    writeInt16 (samples.length : Int) =
      [samples.length % 2 ^ 16 % 256, samples.length % 2 ^ 16 / 2 ^ 8 % 256] ∧
    (int16OfBytes (writeInt16 (samples.length : Int)) = (samples.length : Int) ↔
      samples.length < 2 ^ 15) ∧
    int16OfBytes (writeInt16 ((65536 : Nat) : Int)) = 0 := by
  refine ⟨rfl, by simp only [writeInt16, toU16_natCast], ?_, by decide⟩
  simp only [writeInt16, toU16_natCast, int16OfBytes]
  split <;> omega

/-! ## C5 -/

theorem or128_mod256 (v : Nat) : (v ||| 128) % 256 = v % 128 + 128 := by
  have h : v % 128 + 128 = 2 ^ 7 + v % 2 ^ 7 := by norm_num; omega
  rw [h]
  apply Nat.eq_of_testBit_eq
  intro i
  show ((v ||| 2 ^ 7) % 2 ^ 8).testBit i = _
  rcases Nat.lt_trichotomy i 7 with hi | hi | hi
  · rw [Nat.testBit_two_pow_add_gt hi]
    simp only [Nat.testBit_mod_two_pow, Nat.testBit_lor, Nat.testBit_two_pow]
    have h8 : i < 8 := by omega
    have h7 : ¬(7 = i) := by omega
    simp [h8, hi, h7]
  · subst hi
    rw [Nat.testBit_two_pow_add_eq]
    simp only [Nat.testBit_mod_two_pow, Nat.testBit_lor, Nat.testBit_two_pow]
    simp [Nat.testBit_lt_two_pow (show v % 2 ^ 7 < 2 ^ 7 from Nat.mod_lt _ (by norm_num))]
  · have hlt : 2 ^ 7 + v % 2 ^ 7 < 2 ^ i := by
      calc 2 ^ 7 + v % 2 ^ 7 < 2 ^ 8 := by
            have := Nat.mod_lt v (show 0 < 2 ^ 7 by norm_num); omega
      _ ≤ 2 ^ i := Nat.pow_le_pow_right (by norm_num) (by omega)
    rw [Nat.testBit_lt_two_pow hlt]
    simp only [Nat.testBit_mod_two_pow]
    have h8 : ¬(i < 8) := by omega
    simp [h8]

theorem encode7Fuel_congr (v : Nat) : ∀ f g : Nat, v ≤ f → v ≤ g →
    encode7Fuel f v = encode7Fuel g v := by
  induction v using Nat.strong_induction_on with
  | _ v ih =>
    intro f g hf hg
    match f, g with
    | 0, 0 => rfl
    | 0, g + 1 =>
      have hv : v = 0 := by omega
      subst hv; simp [encode7Fuel]
    | f + 1, 0 =>
      have hv : v = 0 := by omega
      subst hv; simp [encode7Fuel]
    | f + 1, g + 1 =>
      simp only [encode7Fuel]
      split
      · next h =>
        have hs : v >>> 7 < v := by simp only [Nat.shiftRight_eq_div_pow]; omega
        rw [ih (v >>> 7) hs f g (by omega) (by omega)]
      · rfl

/-- The loop equation of `encode7`. -/
theorem encode7_unfold (v : Nat) :
    encode7 v = if 0x80 ≤ v then ((v ||| 0x80) % 256) :: encode7 (v >>> 7) else [v] := by
  cases v with
  | zero => rfl
  | succ w =>
    show encode7Fuel (w + 1) (w + 1) = _
    simp only [encode7Fuel]
    split
    · next h =>
      have hs : (w + 1) >>> 7 ≤ w := by simp only [Nat.shiftRight_eq_div_pow]; omega
      rw [encode7Fuel_congr ((w + 1) >>> 7) w ((w + 1) >>> 7) hs (Nat.le_refl _)]
      rfl
    · rfl

theorem encode7_ne_nil (v : Nat) : encode7 v ≠ [] := by
  rw [encode7_unfold]; split <;> simp

theorem encode7_value7 (v : Nat) : value7 (encode7 v) = v := by
  induction v using Nat.strong_induction_on with
  | _ v ih =>
    rw [encode7_unfold]
    split
    · next h =>
      have hs : v >>> 7 < v := by simp only [Nat.shiftRight_eq_div_pow]; omega
      simp only [value7]
      rw [ih (v >>> 7) hs]
      simp only [or128_mod256, Nat.shiftRight_eq_div_pow]
      omega
    · simp only [value7]; omega

theorem encode7_chain7 (v : Nat) : chain7 (encode7 v) = true := by
  induction v using Nat.strong_induction_on with
  | _ v ih =>
    rw [encode7_unfold]
    split
    · next h =>
      have hs : v >>> 7 < v := by simp only [Nat.shiftRight_eq_div_pow]; omega
      have htail := ih (v >>> 7) hs
      obtain ⟨b, rest, heq⟩ : ∃ b rest, encode7 (v >>> 7) = b :: rest := by
        cases hE : encode7 (v >>> 7) with
        | nil => exact absurd hE (encode7_ne_nil _)
        | cons b rest => exact ⟨b, rest, rfl⟩
      rw [heq] at htail ⊢
      simp only [chain7, or128_mod256, htail, Bool.and_true, decide_eq_true_eq]
      omega
    · next h =>
      simp only [chain7, decide_eq_true_eq]
      omega

theorem encode7_length_le (k : Nat) : ∀ v : Nat, v < 2 ^ (7 * (k + 1)) →
    (encode7 v).length ≤ k + 1 := by
  induction k with
  | zero =>
    intro v hv
    rw [encode7_unfold]
    split
    · next h => norm_num at hv; omega
    · simp
  | succ k ih =>
    intro v hv
    rw [encode7_unfold]
    split
    · next h =>
      have hdiv : v >>> 7 < 2 ^ (7 * (k + 1)) := by
        simp only [Nat.shiftRight_eq_div_pow]
        have hp : 2 ^ (7 * (k + 1 + 1)) = 2 ^ (7 * (k + 1)) * 2 ^ 7 := by
          rw [← Nat.pow_add]; ring_nf
        rw [hp] at hv
        exact (Nat.div_lt_iff_lt_mul (by norm_num)).mpr hv
      have := ih (v >>> 7) hdiv
      simp only [List.length_cons]
      omega
    · simp

/-- C5, counterexample: a string of length `2^28` gets a 5-group length prefix,
refuting "at most 4 groups (28 bits)". -/
theorem c5_counterexample :
    ¬ ((write7BitEncodedInt (((List.replicate (2 ^ 28) (0 : Nat)).length : Nat) : Int)).length ≤ 4) := by
  rw [List.length_replicate]
  decide

/-- C5, amended: `writeString` emits the 7-bit-encoded length (little-endian
base-128 groups with the continuation bit in each byte's high bit, reassembling
to the length reduced mod `2^32`), followed by the raw bytes; the prefix is at
most 5 groups, and at most 4 groups whenever the length is below `2^28`. -/
theorem c5_string_wire_format (s : GoStr) :
    writeString s = write7BitEncodedInt (s.length : Int) ++ s ∧
    value7 (write7BitEncodedInt (s.length : Int)) = s.length % 2 ^ 32 ∧
    chain7 (write7BitEncodedInt (s.length : Int)) = true ∧
    (write7BitEncodedInt (s.length : Int)).length ≤ 5 ∧
    (s.length < 2 ^ 28 → (write7BitEncodedInt (s.length : Int)).length ≤ 4) := by
  refine ⟨rfl, ?_, ?_, ?_, ?_⟩
  · simp only [write7BitEncodedInt, toU32_natCast, encode7_value7]
  · simp only [write7BitEncodedInt, encode7_chain7]
  · simp only [write7BitEncodedInt, toU32_natCast]
    exact encode7_length_le 4 _ (by have := Nat.mod_lt s.length (show 0 < 2 ^ 32 by norm_num); norm_num; omega)
  · intro hlen
    simp only [write7BitEncodedInt, toU32_natCast]
    exact encode7_length_le 3 _ (by norm_num; omega)

/-- C5 witness: instantiation of the amended theorem at the concrete string "hi". -/
theorem c5_string_wire_format_witness :
    (([104, 105] : GoStr).length < 2 ^ 28) ∧
    (write7BitEncodedInt ((([104, 105] : GoStr).length : Nat) : Int)).length ≤ 4 :=
  ⟨by decide, (c5_string_wire_format [104, 105]).2.2.2.2 (by decide)⟩

/-! ## C3 and C7 -/

theorem drop10_cons2 (a b : Nat) (l : List Nat) :
    List.drop 10 (a :: b :: l) = List.drop 8 l := rfl

/-- The emission loop writes exactly one record per entry with a non-empty sample
sequence, in iteration order, and counts exactly those entries. -/
theorem emitIndexedMetrics_spec (iter : Index) :
    emitIndexedMetrics iter =
      ((iter.filter fun en => !en.2.isEmpty).flatMap
        (fun en => writeIndexedMetric en.1 en.2.length en.2),
       (iter.filter fun en => !en.2.isEmpty).length) := by
  induction iter with
  | nil => rfl
  | cons hd tl ih =>
    obtain ⟨name, samples⟩ := hd
    by_cases h : samples.length = 0
    · have hempty : samples.isEmpty = true := by
        rw [List.isEmpty_iff]; exact List.length_eq_zero.mp h
      simp [emitIndexedMetrics, h, List.filter_cons, hempty, ih]
    · have hempty : samples.isEmpty = false := by
        rcases samples with _ | _
        · simp at h
        · rfl
      simp [emitIndexedMetrics, h, List.filter_cons, hempty, ih]

/-- The full byte-level shape of a `SerializeBatch` result. -/
theorem serializeBatch_bytes_split (senderId : GoStr) (tNow : GoTime) (prev : Index)
    (metrics : List Metric) (iter : Index) :
    (SerializeBatch senderId tNow prev metrics iter).bytes =
      0xee :: 0xff :: (writeTime tNow ++
        (writeInt32 ((emitIndexedMetrics iter).2 : Int) ++
          (writeString senderId ++ (emitIndexedMetrics iter).1))) := by
  simp [SerializeBatch, writeBatchHeader, List.append_assoc]

/-- C3: `SerializeBatch` always returns with a nil error; its output is the batch
header followed by one record per index entry with a non-empty sample sequence
(empty entries are skipped); and the 4-byte count field at offset 10 is exactly
the number of those records — independent of the input length and of dropped
metrics. -/
theorem c3_batch_total_and_count (senderId : GoStr) (tNow : GoTime) (prev : Index)
    (metrics : List Metric) (iter : Index)
    (_hiter : iter.Perm (buildIndex prev metrics)) :
    (SerializeBatch senderId tNow prev metrics iter).err = none ∧
    (SerializeBatch senderId tNow prev metrics iter).bytes =
      writeBatchHeader (((iter.filter fun en => !en.2.isEmpty).length : Nat) : Int) tNow senderId ++
        (iter.filter fun en => !en.2.isEmpty).flatMap
          (fun en => writeIndexedMetric en.1 en.2.length en.2) ∧
    ((SerializeBatch senderId tNow prev metrics iter).bytes.drop 10).take 4 =
      writeInt32 (((iter.filter fun en => !en.2.isEmpty).length : Nat) : Int) := by
  refine ⟨rfl, ?_, ?_⟩
  · show writeBatchHeader ((emitIndexedMetrics iter).2 : Int) tNow senderId ++
      (emitIndexedMetrics iter).1 = _
    rw [emitIndexedMetrics_spec]
  · rw [serializeBatch_bytes_split, emitIndexedMetrics_spec]
    rw [drop10_cons2, List.drop_left' (writeTime_length tNow)]
    exact List.take_left' (writeInt32_length _)

/-- C3 witness: the theorem instantiated at a concrete one-metric batch. -/
theorem c3_batch_total_and_count_witness :
    (buildIndex [] [mW]).Perm (buildIndex [] [mW]) ∧
    (SerializeBatch [115] ⟨0, 0⟩ [] [mW] (buildIndex [] [mW])).err = none :=
  ⟨List.Perm.refl _,
   (c3_batch_total_and_count [115] ⟨0, 0⟩ [] [mW] (buildIndex [] [mW]) (List.Perm.refl _)).1⟩

/-- C7, amended: with the map iteration order fixed, two `SerializeBatch` runs on
the same input differ at most in the 8 batch-timestamp bytes at offsets 2–9:
the first two bytes, the whole tail from offset 10, and the total length agree. -/
theorem c7_fixed_order_deterministic_up_to_timestamp (senderId : GoStr) (t1 t2 : GoTime)
    (prev : Index) (metrics : List Metric) (iter : Index) :
    (SerializeBatch senderId t1 prev metrics iter).bytes.take 2 =
      (SerializeBatch senderId t2 prev metrics iter).bytes.take 2 ∧
    (SerializeBatch senderId t1 prev metrics iter).bytes.drop 10 =
      (SerializeBatch senderId t2 prev metrics iter).bytes.drop 10 ∧
    (SerializeBatch senderId t1 prev metrics iter).bytes.length =
      (SerializeBatch senderId t2 prev metrics iter).bytes.length := by
  rw [serializeBatch_bytes_split, serializeBatch_bytes_split]
  refine ⟨rfl, ?_, ?_⟩
  · rw [drop10_cons2, drop10_cons2,
      List.drop_left' (writeTime_length t1), List.drop_left' (writeTime_length t2)]
  · simp [List.length_append, writeTime_length]

/-- C7, counterexample: with identical fresh state and the same header time, two
legal iteration orders of the same built index (Go's map range order is
randomized) produce outputs that differ beyond the timestamp field, so
`SerializeBatch` output is not byte-identical across runs. -/
theorem c7_counterexample :
    ((buildIndex [] [mA, mB]).reverse).Perm (buildIndex [] [mA, mB]) ∧
    (SerializeBatch [115] ⟨0, 0⟩ [] [mA, mB] ((buildIndex [] [mA, mB]).reverse)).bytes.drop 10 ≠
      (SerializeBatch [115] ⟨0, 0⟩ [] [mA, mB] (buildIndex [] [mA, mB])).bytes.drop 10 := by
  constructor
  · decide
  · decide

/-! ## C8 -/

/-- After folding the per-entry resets over `iter`, every entry whose samples were
non-empty-in-`iter` (or empty to begin with) is empty. -/
theorem resetEntries_all_nil (iter : Index) :
    ∀ index : Index,
      (∀ p ∈ index, p.2 = [] ∨ ∃ x ∈ iter, x.1 = p.1 ∧ x.2 ≠ []) →
      ∀ p ∈ resetEntries index iter, p.2 = [] := by
  induction iter with
  | nil =>
    intro index hpre p hp
    rcases hpre p hp with h | ⟨x, hx, _⟩
    · exact h
    · simp at hx
  | cons hd tl ih =>
    intro index hpre p hp
    obtain ⟨name, samples⟩ := hd
    simp only [resetEntries] at hp
    by_cases hs : samples.length = 0
    · rw [if_pos hs] at hp
      refine ih index ?_ p hp
      intro q hq
      rcases hpre q hq with h | ⟨x, hx, hx1, hx2⟩
      · exact Or.inl h
      · rcases List.mem_cons.mp hx with rfl | hx'
        · exact absurd (List.length_eq_zero.mp hs) (by simpa [hx1] using hx2)
        · exact Or.inr ⟨x, hx', hx1, hx2⟩
    · rw [if_neg hs] at hp
      refine ih _ ?_ p hp
      intro q hq
      rcases List.mem_map.mp hq with ⟨q0, hq0, hq0eq⟩
      by_cases hname : q0.1 = name
      · rw [if_pos hname] at hq0eq
        exact Or.inl (by rw [← hq0eq])
      · rw [if_neg hname] at hq0eq
        subst hq0eq
        rcases hpre q0 hq0 with h | ⟨x, hx, hx1, hx2⟩
        · exact Or.inl h
        · rcases List.mem_cons.mp hx with rfl | hx'
          · exact absurd hx1.symm (by simpa using hname)
          · exact Or.inr ⟨x, hx', hx1, hx2⟩

/-- Membership in a sample list after `indexAppend`: the sample was already in the
corresponding entry, or it is the newly appended one. -/
theorem indexAppend_sample_mem (index : Index) (name : GoStr) (smp : photonMetricSample) :
    ∀ p ∈ indexAppend index name smp, ∀ s ∈ p.2,
      (∃ q ∈ index, s ∈ q.2) ∨ s = smp := by
  intro p hp s hs
  simp only [indexAppend] at hp
  split at hp
  · rcases List.mem_map.mp hp with ⟨q, hq, hqeq⟩
    by_cases hname : q.1 = name
    · rw [if_pos hname] at hqeq
      subst hqeq
      simp only at hs
      rcases List.mem_append.mp hs with h | h
      · exact Or.inl ⟨q, hq, h⟩
      · simp at h
        exact Or.inr h
    · rw [if_neg hname] at hqeq
      subst hqeq
      exact Or.inl ⟨q, hq, hs⟩
  · rcases List.mem_append.mp hp with h | h
    · exact Or.inl ⟨p, h, hs⟩
    · simp at h
      subst h
      simp at hs
      exact Or.inr hs

/-- Every sample in the built index comes from the starting index or from one of
the indexed metrics (with that metric's time and selected value). -/
theorem buildIndex_sample_source (metrics : List Metric) :
    ∀ index : Index, ∀ p ∈ buildIndex index metrics, ∀ s ∈ p.2,
      (∃ q ∈ index, s ∈ q.2) ∨
      ∃ m ∈ metrics, s = ⟨m.time, (getMetricValue m).1⟩ := by
  induction metrics with
  | nil =>
    intro index p hp s hs
    exact Or.inl ⟨p, hp, hs⟩
  | cons m rest ih =>
    intro index p hp s hs
    simp only [buildIndex] at hp
    rcases hstep : (indexMetric index m) with ⟨index2, errv⟩
    rw [hstep] at hp
    have h2 := ih index2 p hp s hs
    rcases h2 with ⟨q, hq, hsq⟩ | ⟨m2, hm2, hseq⟩
    · simp only [indexMetric] at hstep
      rcases hval : getMetricValue m with ⟨value, err⟩
      rw [hval] at hstep
      rcases err with _ | e
      · simp only at hstep
        have : index2 = indexAppend index m.name ⟨m.time, value⟩ := by
          cases hstep; rfl
        subst this
        rcases indexAppend_sample_mem index m.name ⟨m.time, value⟩ q hq s hsq with h | h
        · exact Or.inl h
        · refine Or.inr ⟨m, List.mem_cons_self m rest, ?_⟩
          rw [h, hval]
      · simp only at hstep
        have : index2 = index := by cases hstep; rfl
        subst this
        exact Or.inl ⟨q, hq, hsq⟩
    · exact Or.inr ⟨m2, List.mem_cons_of_mem m hm2, hseq⟩

/-- C8: the metric index is fully reset by the end of every `SerializeBatch` call —
every entry of `finalIndex` has an empty sample sequence — and consequently a
following call's index holds only samples derived from that call's own input
metrics: no sample leaks across batches. -/
theorem c8_index_reset_and_no_leak (senderId : GoStr) (tNow : GoTime) (prev : Index)
    (metrics : List Metric) (iter : Index)
    (hiter : iter.Perm (buildIndex prev metrics)) :
    (∀ p ∈ (SerializeBatch senderId tNow prev metrics iter).finalIndex, p.2 = []) ∧
    (∀ (metrics2 : List Metric),
      ∀ p ∈ buildIndex (SerializeBatch senderId tNow prev metrics iter).finalIndex metrics2,
      ∀ s ∈ p.2, ∃ m ∈ metrics2, s = ⟨m.time, (getMetricValue m).1⟩) := by
  have hreset : ∀ p ∈ (SerializeBatch senderId tNow prev metrics iter).finalIndex, p.2 = [] := by
    intro p hp
    refine resetEntries_all_nil iter (buildIndex prev metrics) ?_ p hp
    intro q hq
    by_cases hq2 : q.2 = []
    · exact Or.inl hq2
    · exact Or.inr ⟨q, hiter.mem_iff.mpr hq, rfl, hq2⟩
  refine ⟨hreset, ?_⟩
  intro metrics2 p hp s hs
  rcases buildIndex_sample_source metrics2 _ p hp s hs with ⟨q, hq, hsq⟩ | h
  · rw [hreset q hq] at hsq
    simp at hsq
  · exact h

/-- C8 witness: the theorem instantiated at a concrete one-metric batch. -/
theorem c8_index_reset_and_no_leak_witness :
    (buildIndex [] [mW]).Perm (buildIndex [] [mW]) ∧
    (∀ p ∈ (SerializeBatch [115] ⟨0, 0⟩ [] [mW] (buildIndex [] [mW])).finalIndex, p.2 = []) :=
  ⟨List.Perm.refl _,
   (c8_index_reset_and_no_leak [115] ⟨0, 0⟩ [] [mW] (buildIndex [] [mW]) (List.Perm.refl _)).1⟩

/-! ## C1 -/

/-- C1 evidence: `getMetricValue`'s `case 1:` arm returns `(0, nil)` when the single
field's value fails coercion (the `err` variable is still nil at the final
`return 0, err`), so `indexMetric` succeeds and appends a sample of value 0, and
the batch emission writes one record for the metric: the per-metric step does not
fail with `NoFields` and the metric does contribute a sample and a record,
contradicting the claim (and the spec's "single-field NaN fails" rule, the sibling
`writeMetric`'s behaviour on the `Serialize` path, and the `Serialize`-path tests). -/
theorem c1_single_field_failure_still_indexed :
    getMetricValue metricSingleNaN = (f32zero, none) ∧
    indexMetric [] metricSingleNaN =
      ([([99, 112, 117], [⟨⟨0, 0⟩, f32zero⟩])], none) ∧
    (emitIndexedMetrics (buildIndex [] [metricSingleNaN])).2 = 1 := by
  refine ⟨rfl, rfl, rfl⟩

/-! ## C2 -/

/-- If the `isFloat32Valid` gate passes, the value is not NaN and not `+Inf`
(`-Inf` does pass: `v != v` is false and `MaxFloat32 < v` is false for `-Inf`). -/
theorem isFloat32Valid_none_cases (w : F32) (h : isFloat32Valid w = none) :
    w ≠ F32.nan ∧ w ≠ F32.inf false := by
  constructor <;> rintro rfl <;> simp [isFloat32Valid, eqF32, ltF32] at h

theorem fcheck_true (x w : F32) (h : fcheck x = (true, w)) :
    x = w ∧ isFloat32Valid w = none := by
  unfold fcheck at h
  rcases hv : isFloat32Valid x with _ | e
  · rw [hv] at h
    injection h with h1 h2
    exact ⟨h2, h2 ▸ hv⟩
  · rw [hv] at h
    simp at h

/-- Any value accepted by `isValidFieldTypeAndValue` passed the `isFloat32Valid`
gate, hence is neither NaN nor `+Inf`. -/
theorem isValid_true_not_nan_posinf (fv : FieldValue) (w : F32)
    (h : isValidFieldTypeAndValue fv = (true, w)) :
    w ≠ F32.nan ∧ w ≠ F32.inf false := by
  cases fv with
  | i32 v => exact isFloat32Valid_none_cases w (fcheck_true _ _ h).2
  | u32 v => exact isFloat32Valid_none_cases w (fcheck_true _ _ h).2
  | i64 v => exact isFloat32Valid_none_cases w (fcheck_true _ _ h).2
  | u64 v => exact isFloat32Valid_none_cases w (fcheck_true _ _ h).2
  | f32 v => exact isFloat32Valid_none_cases w (fcheck_true _ _ h).2
  | f64 v =>
    cases v with
    | nan => simp [isValidFieldTypeAndValue] at h
    | inf b => simp [isValidFieldTypeAndValue] at h
    | finite d => exact isFloat32Valid_none_cases w (fcheck_true _ _ h).2
  | str s => simp [isValidFieldTypeAndValue] at h
  | boolean b => simp [isValidFieldTypeAndValue] at h

theorem scanFields_not_nan_posinf (fs : List MetricField) :
    (scanFields fs).1 ≠ F32.nan ∧ (scanFields fs).1 ≠ F32.inf false := by
  induction fs with
  | nil => simp [scanFields, f32zero]
  | cons k rest ih =>
    simp only [scanFields]
    rcases hv : isValidFieldTypeAndValue k.value with ⟨ok, w⟩
    cases ok
    · exact ih
    · dsimp only
      by_cases hk : k.key = valueMeanKey ∨ k.key = valueKey
      · rw [if_pos hk]
        exact isValid_true_not_nan_posinf k.value w hv
      · rw [if_neg hk]
        exact ih

/-- C2, amended: every value that can appear in a sample produced by
`getMetricValue` (including the buggy all-zero fallback) is neither NaN nor
`+Inf`; `-Inf`, however, is not excluded — see the counterexample. -/
theorem c2_sample_values_never_nan_never_posinf (m : Metric) :
    (getMetricValue m).1 ≠ F32.nan ∧ (getMetricValue m).1 ≠ F32.inf false := by
  rcases m with ⟨name, t, fs⟩
  rcases fs with _ | ⟨f, rest⟩
  · simp [getMetricValue, f32zero]
  · rcases rest with _ | ⟨f2, rest2⟩
    · simp only [getMetricValue]
      rcases hv : isValidFieldTypeAndValue f.value with ⟨ok, w⟩
      cases ok
      · simp [f32zero]
      · exact isValid_true_not_nan_posinf f.value w hv
    · exact scanFields_not_nan_posinf (f :: f2 :: rest2)

/-- C2, counterexample: the finite float64 `-2^128` passes the float64 NaN/Inf
pre-checks, narrows to `-Inf`, and passes `isFloat32Valid` (which only checks
`MaxFloat32 < v`), so the Value Selector accepts it and `indexMetric` creates a
sample carrying `-Inf` — refuting "no emitted sample value is NaN or ±infinity". -/
theorem c2_counterexample :
    isValidFieldTypeAndValue (.f64 (.finite ⟨-1, 128⟩)) = (true, .inf true) ∧
    indexMetric [] metricNegHuge = ([([97], [⟨⟨0, 0⟩, .inf true⟩])], none) :=
  ⟨rfl, rfl⟩

/-! ## C4 -/

/-- The multi-field scan returns the coerced value of the first field satisfying
`goodField`, and `NoFields` when none does. -/
theorem scanFields_eq_find (fs : List MetricField) :
    scanFields fs =
      match fs.find? goodField with
      | some f => ((isValidFieldTypeAndValue f.value).2, none)
      | none => (f32zero, some NoFields) := by
  induction fs with
  | nil => rfl
  | cons k rest ih =>
    simp only [scanFields]
    rcases hv : isValidFieldTypeAndValue k.value with ⟨ok, w⟩
    have hgf : goodField k = (ok && (decide (k.key = valueMeanKey) || decide (k.key = valueKey))) := by
      simp [goodField, hv]
    cases ok
    · dsimp only
      rw [List.find?_cons]
      simp only [hgf, Bool.false_and]
      exact ih
    · dsimp only
      rw [List.find?_cons]
      by_cases hk : k.key = valueMeanKey ∨ k.key = valueKey
      · rw [if_pos hk]
        have hg : goodField k = true := by
          rw [hgf]
          rcases hk with hk | hk <;> simp [hk]
      
        simp only [hg, hv]
      · rw [if_neg hk]
        have hg : goodField k = false := by
          rw [hgf]
          push_neg at hk
          simp [hk.1, hk.2]
        simp only [hg]
        exact ih

/-- C4: for a metric with two or more fields, value selection returns the coerced
value of the first field (in natural iteration order) whose value coerces and
whose key is exactly "value" or "value_mean" (fields whose value fails coercion
are skipped even if their key matches), and fails with `NoFields` exactly when no
such field exists. -/
theorem c4_multi_field_selection (name : GoStr) (t : GoTime) (fs : List MetricField)
    (h : 2 ≤ fs.length) :
    getMetricValue ⟨name, t, fs⟩ =
      (match fs.find? goodField with
       | some f => ((isValidFieldTypeAndValue f.value).2, none)
       | none => (f32zero, some NoFields)) ∧
    ((getMetricValue ⟨name, t, fs⟩).2 = none ↔ ∃ f ∈ fs, goodField f = true) := by
  obtain ⟨f1, f2, rest, rfl⟩ : ∃ f1 f2 rest, fs = f1 :: f2 :: rest := by
    rcases fs with _ | ⟨f1, _ | ⟨f2, rest⟩⟩
    · simp at h
    · simp at h
    · exact ⟨f1, f2, rest, rfl⟩
  have hval : getMetricValue ⟨name, t, f1 :: f2 :: rest⟩ = scanFields (f1 :: f2 :: rest) := rfl
  rw [hval, scanFields_eq_find]
  refine ⟨rfl, ?_⟩
  rcases hfind : (f1 :: f2 :: rest).find? goodField with _ | f
  · simp only [hfind]
    constructor
    · intro hc; simp at hc
    · rintro ⟨f, hf, hgf⟩
      have hsome := List.find?_isSome.mpr ⟨f, hf, hgf⟩
      rw [hfind] at hsome
      simp at hsome
  · simp only [hfind]
    constructor
    · intro _
      exact List.find?_isSome.mp (by rw [hfind]; rfl)
    · intro _; trivial

/-- C4 witness: the theorem instantiated at the spec's example (selection
succeeds, picking the `value_mean` entry). -/
theorem c4_multi_field_selection_witness :
    2 ≤ fsC4.length ∧
    ((getMetricValue ⟨[97], ⟨0, 0⟩, fsC4⟩).2 = none ↔ ∃ f ∈ fsC4, goodField f = true) :=
  ⟨by decide, (c4_multi_field_selection [97] ⟨0, 0⟩ fsC4 (by decide)).2⟩

/-! ## C10 -/

theorem log2Fuel_le : ∀ f n k : Nat, n < 2 ^ (k + 1) → log2Fuel f n ≤ k := by
  intro f
  induction f with
  | zero => intro n k h; simp [log2Fuel]
  | succ f ih =>
    intro n k h
    simp only [log2Fuel]
    split
    · next h2 =>
      match k with
      | 0 => norm_num at h; omega
      | k + 1 =>
        have hdiv : n / 2 < 2 ^ (k + 1) := by
          have hp : 2 ^ (k + 1 + 1) = 2 ^ (k + 1) * 2 := by rw [Nat.pow_succ]
          rw [hp] at h
          exact (Nat.div_lt_iff_lt_mul (by norm_num)).mpr h
        have := ih (n / 2) k hdiv
        omega
    · omega

theorem natLog2_le {n k : Nat} (h : n < 2 ^ (k + 1)) : natLog2 n ≤ k :=
  log2Fuel_le n n k h

theorem dyEq_refl (d : Dy) : dyEq d d = true := by
  simp [dyEq]

theorem roundF32_int_small (w : Int) (hw0 : w ≠ 0) (hw : w.natAbs < 2 ^ 65) :
    ∃ d : Dy, roundF32 ⟨w, 0⟩ = .finite d ∧ isFloat32Valid (.finite d) = none := by
  simp only [roundF32, hw0, if_false]
  set a := w.natAbs with ha
  set L := natLog2 a with hL
  have hL64 : L ≤ 64 := natLog2_le (by omega)
  have hmax : max ((L : Int) + (0 : Int)) (-126) = (L : Int) := by omega
  rw [hmax]
  have harg : ((L : Int) - 23 - 0) = (L : Int) - 23 := by omega
  rw [harg]
  set n := rnshift a ((L : Int) - 23) with hn
  -- bound the rounded mantissa
  have hnA : L ≤ 23 → n < 2 ^ 88 := by
    intro hcase
    have hk : ((L : Int) - 23) ≤ 0 := by omega
    have htoNat : (-(((L : Int)) - 23)).toNat = 23 - L := by omega
    rw [hn, rnshift, if_pos hk, htoNat]
    calc a * 2 ^ (23 - L) ≤ a * 2 ^ 23 :=
          Nat.mul_le_mul_left a (Nat.pow_le_pow_right (by norm_num) (by omega))
    _ < 2 ^ 65 * 2 ^ 23 := Nat.mul_lt_mul_of_lt_of_le hw (Nat.le_refl _) (by norm_num)
    _ = 2 ^ 88 := by norm_num
  have hnB : 24 ≤ L → n ≤ 2 ^ 64 := by
    intro hcase
    have hk : ¬(((L : Int) - 23) ≤ 0) := by omega
    have htoNat : (((L : Int)) - 23).toNat = L - 23 := by omega
    have hq : a / 2 ^ (L - 23) ≤ a / 2 := by
      apply Nat.div_le_div_left (show 2 ≤ 2 ^ (L - 23) from ?_) (by norm_num)
      calc (2 : Nat) = 2 ^ 1 := by norm_num
      _ ≤ 2 ^ (L - 23) := Nat.pow_le_pow_right (by norm_num) (by omega)
    have hq64 : a / 2 ^ (L - 23) + 1 ≤ 2 ^ 64 := by
      have : a / 2 < 2 ^ 64 := by omega
      omega
    rw [hn, rnshift, if_neg hk, htoNat]
    dsimp only
    split
    · omega
    · split
      · omega
      · split <;> omega
  have hnlt : n < 2 ^ (151 - L) := by
    by_cases hcase : L ≤ 23
    · calc n < 2 ^ 88 := hnA hcase
      _ ≤ 2 ^ (151 - L) := Nat.pow_le_pow_right (by norm_num) (by omega)
    · calc n ≤ 2 ^ 64 := hnB (by omega)
      _ < 2 ^ 87 := by norm_num
      _ ≤ 2 ^ (151 - L) := Nat.pow_le_pow_right (by norm_num) (by omega)
  have hnle : n ≤ (2 ^ 24 - 1) * 2 ^ (127 - L) := by
    by_cases hcase : L ≤ 23
    · have h1 : n < 2 ^ 88 := hnA hcase
      have h2 : (2 ^ 104 : Nat) ≤ (2 ^ 24 - 1) * 2 ^ (127 - L) := by
        calc (2 ^ 104 : Nat) = 1 * 2 ^ 104 := by norm_num
        _ ≤ (2 ^ 24 - 1) * 2 ^ (127 - L) :=
            Nat.mul_le_mul (by norm_num) (Nat.pow_le_pow_right (by norm_num) (by omega))
      have h3 : (2 ^ 88 : Nat) ≤ 2 ^ 104 := by norm_num
      omega
    · have h1 : n ≤ 2 ^ 64 := hnB (by omega)
      have h2 : (2 ^ 86 : Nat) ≤ (2 ^ 24 - 1) * 2 ^ (127 - L) := by
        calc (2 ^ 86 : Nat) = 2 ^ 23 * 2 ^ 63 := by norm_num
        _ ≤ (2 ^ 24 - 1) * 2 ^ (127 - L) :=
            Nat.mul_le_mul (by norm_num) (Nat.pow_le_pow_right (by norm_num) (by omega))
      have h3 : (2 ^ 64 : Nat) ≤ 2 ^ 86 := by norm_num
      omega
  -- the overflow branch is not taken
  have hG1 : dyLe ⟨1, 128⟩ ⟨(n : Int), (L : Int) - 23⟩ = false := by
    simp only [dyLe]
    rw [if_neg (show ¬((128 : Int) ≤ (L : Int) - 23) by omega)]
    have htoNat : ((128 : Int) - ((L : Int) - 23)).toNat = 151 - L := by omega
    rw [htoNat]
    simp only [decide_eq_false_iff_not, not_le]
    have : ((n : Int)) < ((2 ^ (151 - L) : Nat) : Int) := by exact_mod_cast hnlt
    calc ((1 : Int) * 2 ^ (151 - L)) = ((2 ^ (151 - L) : Nat) : Int) := by push_cast; ring
    _ > (n : Int) := this
  refine ⟨⟨if w < 0 then -(n : Int) else (n : Int), (L : Int) - 23⟩, ?_, ?_⟩
  · rw [if_neg (by simp [hG1])]
  · -- the accepted value passes isFloat32Valid
    have hG3 : dyLt maxFloat32 ⟨if w < 0 then -(n : Int) else (n : Int), (L : Int) - 23⟩ = false := by
      simp only [dyLt, maxFloat32]
      rw [if_neg (show ¬((104 : Int) ≤ (L : Int) - 23) by omega)]
      have htoNat : ((104 : Int) - ((L : Int) - 23)).toNat = 127 - L := by omega
      simp only [htoNat, decide_eq_false_iff_not, not_lt]
      have hcast : ((n : Int)) ≤ (((2 ^ 24 - 1) * 2 ^ (127 - L) : Nat) : Int) := by exact_mod_cast hnle
      have hrhs : (((2 ^ 24 - 1) * 2 ^ (127 - L) : Nat) : Int) =
          ((2 ^ 24 - 1 : Int)) * 2 ^ (127 - L) := by push_cast; ring
      split
      · next hwneg =>
        have : (0 : Int) ≤ ((2 ^ 24 - 1 : Int)) * 2 ^ (127 - L) := by positivity
        omega
      · omega
    simp only [isFloat32Valid, eqF32, dyEq_refl, Bool.not_true, if_false, ltF32, hG3,
      Bool.false_eq_true]

theorem fcheck_roundF32_int (w : Int) (hw : w.natAbs < 2 ^ 65) :
    ∃ d, fcheck (roundF32 ⟨w, 0⟩) = (true, .finite d) := by
  by_cases hw0 : w = 0
  · subst hw0
    exact ⟨⟨0, 0⟩, by decide⟩
  · obtain ⟨d, hd, hvalid⟩ := roundF32_int_small w hw0 hw
    exact ⟨d, by rw [hd]; simp [fcheck, hvalid]⟩

/-- C10: for every field value of an integer type within its Go range, the
`float32` conversion produces a finite value and the `isFloat32Valid` gate
accepts it, so `isValidFieldTypeAndValue` always returns `(true, finite)` —
the post-coercion rejection branch is unreachable for integer-typed inputs. -/
theorem c10_integer_coercion_never_rejected :
    (∀ v : Int, -(2 ^ 31) ≤ v → v < 2 ^ 31 →
      ∃ d, isValidFieldTypeAndValue (.i32 v) = (true, .finite d)) ∧
    (∀ v : Nat, v < 2 ^ 32 →
      ∃ d, isValidFieldTypeAndValue (.u32 v) = (true, .finite d)) ∧
    (∀ v : Int, -(2 ^ 63) ≤ v → v < 2 ^ 63 →
      ∃ d, isValidFieldTypeAndValue (.i64 v) = (true, .finite d)) ∧
    (∀ v : Nat, v < 2 ^ 64 →
      ∃ d, isValidFieldTypeAndValue (.u64 v) = (true, .finite d)) := by
  refine ⟨fun v h1 h2 => ?_, fun v h1 => ?_, fun v h1 h2 => ?_, fun v h1 => ?_⟩
  · exact fcheck_roundF32_int v (by omega)
  · exact fcheck_roundF32_int (v : Int) (by simp [Int.natAbs_ofNat]; omega)
  · exact fcheck_roundF32_int v (by omega)
  · exact fcheck_roundF32_int (v : Int) (by simp [Int.natAbs_ofNat]; omega)

/-- C10 witness: the `int64` case instantiated at `2^62`. -/
theorem c10_integer_coercion_never_rejected_witness :
    (-(2 ^ 63) ≤ (2 ^ 62 : Int) ∧ (2 ^ 62 : Int) < 2 ^ 63) ∧
    ∃ d, isValidFieldTypeAndValue (.i64 (2 ^ 62)) = (true, .finite d) :=
  ⟨⟨by norm_num, by norm_num⟩,
   c10_integer_coercion_never_rejected.2.2.1 (2 ^ 62) (by norm_num) (by norm_num)⟩
